import Mathlib

/-!
Shallow embedding of `sky/shell/ui/flutter_font_selector.cc` (FlutterFontSelector):
manifest parsing, variant matching, the typeface (asset) cache, and the font-data
(style) cache, together with theorems about them.

External collaborators (the asset-bundle byte fetch `ZipAssetBundle::GetAsBuffer`
and the Skia typeface constructor `SkFontMgr::createFromStream`) are modelled as
function parameters in an environment; typefaces are opaque handles carrying only
the observable bits (`isBold`, `isItalic`) the selector queries.
-/

namespace FlutterFontSelector

/-- blink FontStyle: FontStyleNormal / FontStyleItalic. -/
inductive FontStyle where
  | Normal
  | Italic
deriving DecidableEq

/-- Style attributes of a Flutter font asset (struct FlutterFontAttributes). -/
structure FlutterFontAttributes where
  asset_path : String
  weight : Int
  style : FontStyle
deriving DecidableEq

/-- blink FontWeight enum members are indices 0..8; FontWeightNormal = FontWeight400. -/
def FontWeightNormal : Nat := 3

/-- blink FontWeight600 (index into the enum). -/
def FontWeight600 : Nat := 5

/-- Weight values corresponding to the members of the FontWeight enum
(`kFontWeightValue`). -/
def kFontWeightValue : List Int := [100, 200, 300, 400, 500, 600, 700, 800, 900]

/-- `kFontWeightNormal = kFontWeightValue[FontWeightNormal]`. -/
def kFontWeightNormal : Int := kFontWeightValue.getD FontWeightNormal 0

/-- `getFontWeightValue`: bounds-checked table lookup, falling back to
`kFontWeightNormal` for an out-of-range enum index. -/
def getFontWeightValue (weight : Nat) : Int :=
  if weight < kFontWeightValue.length then kFontWeightValue.getD weight 0
  else kFontWeightNormal

/-- The style request (blink FontDescription), restricted to the fields the
selector reads: weight (FontWeight enum index), style, the explicit synthetic
flags, effective font size, orientation and subpixel positioning. -/
structure FontDescription where
  weight : Nat
  style : FontStyle
  isSyntheticBold : Bool
  isSyntheticItalic : Bool
  effectiveFontSize : Int
  orientation : Nat
  useSubpixelPositioning : Bool
deriving DecidableEq

/-- `FontMatcher::operator()`: the strict comparator handed to `std::min_element`.
Styles differing, the variant matching the requested style wins; otherwise the
smaller absolute distance to the target weight wins. -/
def fontMatcherLess (description : FontDescription) (font1 font2 : FlutterFontAttributes) :
    Bool :=
  let target_weight := getFontWeightValue description.weight
  let weight_delta1 := (font1.weight - target_weight).natAbs
  let weight_delta2 := (font2.weight - target_weight).natAbs
  if font1.style ≠ font2.style then
    if font1.style = description.style then true
    else if font2.style = description.style then false
    else decide (weight_delta1 < weight_delta2)
  else decide (weight_delta1 < weight_delta2)

/-- `std::min_element` as a left fold: keep the current minimum, replace it only
when a later element compares strictly less. -/
def minElementAux (less : α → α → Bool) (current : α) : List α → α
  | [] => current
  | x :: xs => minElementAux less (if less x current then x else current) xs

/-- The variant selection of `getTypefaceAsset` (lines 229-239): empty family
yields nothing, a single variant is returned without comparison, otherwise
`std::min_element` with `FontMatcher` runs over the list. -/
def pickVariant (description : FontDescription) (fonts : List FlutterFontAttributes) :
    Option FlutterFontAttributes :=
  match fonts with
  | [] => none
  | [font] => some font
  | font :: rest => some (minElementAux (fontMatcherLess description) font rest)

/-! ### The lexicographic matching order -/

/-- 0 when the variant's style matches the requested style, else 1: the first
key of the matcher's lexicographic order. -/
def styleMismatch (description : FontDescription) (font : FlutterFontAttributes) : Nat :=
  if font.style = description.style then 0 else 1

/-- Absolute distance from the variant's weight to the requested target weight:
the second key of the matcher's lexicographic order. -/
def weightDistance (description : FontDescription) (font : FlutterFontAttributes) : Nat :=
  (font.weight - getFontWeightValue description.weight).natAbs

/-- The two-part matching key: (style-mismatch-penalty, weight distance). -/
def matchKey (description : FontDescription) (font : FlutterFontAttributes) : Nat × Nat :=
  (styleMismatch description font, weightDistance description font)

/-- Strict lexicographic order on matching keys. -/
def keyLT (a b : Nat × Nat) : Prop :=
  a.1 < b.1 ∨ (a.1 = b.1 ∧ a.2 < b.2)

instance (a b : Nat × Nat) : Decidable (keyLT a b) := by
  unfold keyLT; infer_instance

theorem keyLT_irrefl (a : Nat × Nat) : ¬ keyLT a a := by
  obtain ⟨a1, a2⟩ := a; simp [keyLT]

theorem keyLT_asymm {a b : Nat × Nat} (h : keyLT a b) : ¬ keyLT b a := by
  obtain ⟨a1, a2⟩ := a; obtain ⟨b1, b2⟩ := b
  simp only [keyLT] at *; omega

theorem keyLT_of_not_lt_of_lt {a b c : Nat × Nat} (h1 : ¬ keyLT a b) (h2 : keyLT a c) :
    keyLT b c := by
  obtain ⟨a1, a2⟩ := a; obtain ⟨b1, b2⟩ := b; obtain ⟨c1, c2⟩ := c
  simp only [keyLT] at *; omega

theorem keyLT_of_lt_of_not_lt {a b c : Nat × Nat} (h1 : keyLT a b) (h2 : ¬ keyLT c b) :
    keyLT a c := by
  obtain ⟨a1, a2⟩ := a; obtain ⟨b1, b2⟩ := b; obtain ⟨c1, c2⟩ := c
  simp only [keyLT] at *; omega

/-- The C++ comparator decides exactly the strict lexicographic order on
matching keys (FontStyle having exactly two members, two differing styles
always put exactly one of the two variants on the requested style). -/
theorem fontMatcherLess_eq_keyLT (description : FontDescription)
    (font1 font2 : FlutterFontAttributes) :
    fontMatcherLess description font1 font2 =
      decide (keyLT (matchKey description font1) (matchKey description font2)) := by
  have h1 : font1.style = font1.style := rfl
  cases hs1 : font1.style <;> cases hs2 : font2.style <;> cases hd : description.style <;>
    simp [fontMatcherLess, matchKey, styleMismatch, weightDistance, keyLT, hs1, hs2, hd]

/-- The comparator, as a function, is the decided lexicographic order. -/
theorem fontMatcherLess_eq (description : FontDescription) :
    fontMatcherLess description =
      fun x y => decide (keyLT (matchKey description x) (matchKey description y)) :=
  funext fun x => funext fun y => fontMatcherLess_eq_keyLT description x y

/-- `minElementAux` with a decided strict lexicographic comparator returns the
first occurrence of the minimum: the scanned list splits around the result, every
element left of the result is strictly greater, and no element anywhere is
strictly smaller. -/
theorem minElementAux_argmin {α : Type} (κ : α → Nat × Nat) (current : α) (xs : List α) :
    ∃ l1 l2,
      current :: xs =
        l1 ++ minElementAux (fun x y => decide (keyLT (κ x) (κ y))) current xs :: l2 ∧
      (∀ y ∈ l1,
        keyLT (κ (minElementAux (fun x y => decide (keyLT (κ x) (κ y))) current xs)) (κ y)) ∧
      (∀ y ∈ current :: xs,
        ¬ keyLT (κ y) (κ (minElementAux (fun x y => decide (keyLT (κ x) (κ y))) current xs))) := by
  induction xs generalizing current with
  | nil =>
    refine ⟨[], [], rfl, by simp, ?_⟩
    intro y hy
    simp only [minElementAux, List.mem_singleton] at hy ⊢
    subst hy
    exact keyLT_irrefl _
  | cons x t ih =>
    by_cases h : keyLT (κ x) (κ current)
    · have hred : minElementAux (fun x y => decide (keyLT (κ x) (κ y))) current (x :: t) =
          minElementAux (fun x y => decide (keyLT (κ x) (κ y))) x t := by
        simp [minElementAux, h]
      rw [hred]
      obtain ⟨l1, l2, heq, hl1, hmin⟩ := ih x
      have hmx : ¬ keyLT (κ x)
          (κ (minElementAux (fun x y => decide (keyLT (κ x) (κ y))) x t)) :=
        hmin x (List.mem_cons_self _ _)
      have hmc : keyLT
          (κ (minElementAux (fun x y => decide (keyLT (κ x) (κ y))) x t)) (κ current) :=
        keyLT_of_not_lt_of_lt hmx h
      refine ⟨current :: l1, l2, ?_, ?_, ?_⟩
      · rw [List.cons_append, ← heq]
      · intro y hy
        rcases List.mem_cons.mp hy with hy | hy
        · subst hy; exact hmc
        · exact hl1 y hy
      · intro y hy
        rcases List.mem_cons.mp hy with hy | hy
        · subst hy; exact keyLT_asymm hmc
        · exact hmin y hy
    · have hred : minElementAux (fun x y => decide (keyLT (κ x) (κ y))) current (x :: t) =
          minElementAux (fun x y => decide (keyLT (κ x) (κ y))) current t := by
        simp [minElementAux, h]
      rw [hred]
      obtain ⟨l1, l2, heq, hl1, hmin⟩ := ih current
      match l1, heq with
      | [], heq =>
        rw [List.nil_append] at heq
        have hm2 := (List.cons.injEq current t _ _).mp heq
        refine ⟨[], x :: t, ?_, by simp, ?_⟩
        · rw [List.nil_append, ← hm2.1]
        · intro y hy
          rcases List.mem_cons.mp hy with hy | hy
          · subst hy; exact hmin _ (List.mem_cons_self _ _)
          rcases List.mem_cons.mp hy with hy | hy
          · subst hy; rw [← hm2.1]; exact h
          · exact hmin y (List.mem_cons_of_mem _ hy)
      | a :: l1x, heq =>
        rw [List.cons_append] at heq
        have hm2 := (List.cons.injEq current t a _).mp heq
        have hmc : keyLT
            (κ (minElementAux (fun x y => decide (keyLT (κ x) (κ y))) current t))
            (κ current) := by
          have := hl1 a (List.mem_cons_self _ _)
          rw [← hm2.1] at this
          exact this
        have hmx : keyLT
            (κ (minElementAux (fun x y => decide (keyLT (κ x) (κ y))) current t)) (κ x) :=
          keyLT_of_lt_of_not_lt hmc h
        refine ⟨current :: x :: l1x, l2, ?_, ?_, ?_⟩
        · rw [List.cons_append, List.cons_append, ← hm2.2]
        · intro y hy
          rcases List.mem_cons.mp hy with hy | hy
          · subst hy; exact hmc
          rcases List.mem_cons.mp hy with hy | hy
          · subst hy; exact hmx
          · exact hl1 y (List.mem_cons_of_mem _ hy)
        · intro y hy
          rcases List.mem_cons.mp hy with hy | hy
          · subst hy; exact hmin _ (List.mem_cons_self _ _)
          rcases List.mem_cons.mp hy with hy | hy
          · subst hy; exact keyLT_asymm hmx
          · exact hmin y (List.mem_cons_of_mem _ hy)

/-! ### Spec example inputs for the matcher -/

/-- The spec's matcher example: variants (400, Normal), (700, Normal), (400, Italic). -/
def exampleVariants : List FlutterFontAttributes :=
  [⟨"Regular.ttf", 400, FontStyle.Normal⟩,
   ⟨"Bold.ttf", 700, FontStyle.Normal⟩,
   ⟨"Italic.ttf", 400, FontStyle.Italic⟩]

/-- The spec's matcher example request: weight 700 (FontWeight enum index 6), Italic. -/
def exampleRequest : FontDescription :=
  ⟨6, FontStyle.Italic, false, false, 14, 0, false⟩

/-- The Italic variant of the spec's matcher example. -/
def exampleItalicVariant : FlutterFontAttributes := ⟨"Italic.ttf", 400, FontStyle.Italic⟩

/-- C1: on every variant list with at least two elements the matcher returns a
variant of the list that is minimal under the lexicographic order
(style-mismatch-penalty, weight distance), with every variant occurring before it
strictly greater (first occurrence wins exact ties) and no variant anywhere
strictly smaller; and on the spec's example (variants (400,Normal), (700,Normal),
(400,Italic); request weight 700 Italic) the Italic variant is chosen. -/
theorem pickVariant_selects_lex_minimum (description : FontDescription)
    (fonts : List FlutterFontAttributes) (h : 2 ≤ fonts.length) :
    (∃ chosen l1 l2,
      pickVariant description fonts = some chosen ∧
      fonts = l1 ++ chosen :: l2 ∧
      (∀ y ∈ l1, keyLT (matchKey description chosen) (matchKey description y)) ∧
      (∀ y ∈ fonts, ¬ keyLT (matchKey description y) (matchKey description chosen))) ∧
    pickVariant exampleRequest exampleVariants = some exampleItalicVariant := by
  refine ⟨?_, by decide⟩
  match fonts, h with
  | f :: g :: t, _ =>
    have hpick : pickVariant description (f :: g :: t) =
        some (minElementAux (fontMatcherLess description) f (g :: t)) := rfl
    rw [fontMatcherLess_eq] at hpick
    obtain ⟨l1, l2, heq, hl1, hmin⟩ := minElementAux_argmin (matchKey description) f (g :: t)
    exact ⟨_, l1, l2, hpick, heq, hl1, hmin⟩

/-- Witness for C1 at the spec's example inputs. -/
theorem pickVariant_selects_lex_minimum_witness :
    2 ≤ exampleVariants.length ∧
    ((∃ chosen l1 l2,
      pickVariant exampleRequest exampleVariants = some chosen ∧
      exampleVariants = l1 ++ chosen :: l2 ∧
      (∀ y ∈ l1, keyLT (matchKey exampleRequest chosen) (matchKey exampleRequest y)) ∧
      (∀ y ∈ exampleVariants,
        ¬ keyLT (matchKey exampleRequest y) (matchKey exampleRequest chosen))) ∧
    pickVariant exampleRequest exampleVariants = some exampleItalicVariant) :=
  ⟨by decide, pickVariant_selects_lex_minimum exampleRequest exampleVariants (by decide)⟩

/-- C9: a family whose variant list has exactly one element resolves to that sole
variant for every requested weight and style, style mismatch included. -/
theorem pickVariant_singleton (description : FontDescription) (font : FlutterFontAttributes) :
    pickVariant description [font] = some font := rfl

/-- C10: the FontWeight-to-numeric-weight conversion is total: indices 0 through 8
map to the fixed scale 100, 200, ..., 900, and every index at or beyond 9 falls
back to 400. -/
theorem getFontWeightValue_total (weight : Nat) :
    getFontWeightValue weight = if weight < 9 then (100 : Int) * (weight + 1) else 400 := by
  by_cases h : weight < 9
  · interval_cases weight <;> rfl
  · have hlen : ¬ weight < kFontWeightValue.length := by
      simp only [kFontWeightValue, List.length]; omega
    simp [getFontWeightValue, hlen, h, kFontWeightNormal, kFontWeightValue, FontWeightNormal]

/-! ### Manifest parsing (`parseFontManifest`)

The manifest arrives as an already-decoded JSON-like value tree (`base::Value`);
`none` stands for an absent manifest file or one `JSONReader::Read` rejected. -/

/-- A `base::Value` tree: the types the parser can encounter. -/
inductive JsonValue where
  | nullv
  | boolean (b : Bool)
  | integer (n : Int)
  | str (s : String)
  | list (xs : List JsonValue)
  | dict (entries : List (String × JsonValue))

/-- Association-list lookup (first match), modelling map lookups. -/
def alookup {α β : Type} [DecidableEq α] : List (α × β) → α → Option β
  | [], _ => none
  | (k, v) :: rest, key => if k = key then some v else alookup rest key

/-- `Value::GetAsList`. -/
def getAsList : JsonValue → Option (List JsonValue)
  | JsonValue.list xs => some xs
  | _ => none

/-- `Value::GetAsDictionary`. -/
def getAsDictionary : JsonValue → Option (List (String × JsonValue))
  | JsonValue.dict entries => some entries
  | _ => none

/-- `DictionaryValue::GetString`: succeeds only on a present string-typed key. -/
def getDictString (d : List (String × JsonValue)) (key : String) : Option String :=
  match alookup d key with
  | some (JsonValue.str s) => some s
  | _ => none

/-- `DictionaryValue::GetInteger`: succeeds only on a present integer-typed key. -/
def getDictInteger (d : List (String × JsonValue)) (key : String) : Option Int :=
  match alookup d key with
  | some (JsonValue.integer n) => some n
  | _ => none

/-- `DictionaryValue::GetList`: succeeds only on a present list-typed key. -/
def getDictList (d : List (String × JsonValue)) (key : String) : Option (List JsonValue) :=
  match alookup d key with
  | some (JsonValue.list xs) => some xs
  | _ => none

/-- One entry of the font list (lines 165-184): skipped unless it is an object
with a string `asset`; `weight` starts at `kFontWeightNormal` and is overwritten
only by a successful integer read; `style` becomes Italic exactly when a string
`style` equal to "italic" is read. -/
def parseFontAttributes (list_entry : JsonValue) : Option FlutterFontAttributes :=
  match getAsDictionary list_entry with
  | none => none
  | some font_dict =>
    match getDictString font_dict "asset" with
    | none => none
    | some asset_path =>
      let weight : Int :=
        match getDictInteger font_dict "weight" with
        | some w => w
        | none => kFontWeightNormal
      let style : FontStyle :=
        match getDictString font_dict "style" with
        | some s => if s = "italic" then FontStyle.Italic else FontStyle.Normal
        | none => FontStyle.Normal
      some { asset_path := asset_path, weight := weight, style := style }

/-- The family registry: family name to ordered variant list. -/
abbrev Registry : Type := List (String × List FlutterFontAttributes)

/-- WTF `HashMap::set` as observed through lookups: replace the value of an
existing key, otherwise add the pair. -/
def setFamily (reg : Registry) (key : String) (v : List FlutterFontAttributes) : Registry :=
  match reg with
  | [] => [(key, v)]
  | (k, w) :: rest =>
    if k = key then (key, v) :: rest else (k, w) :: setFamily rest key v

/-- The guard block of one family entry (lines 148-157): the family name and
fonts list an entry contributes, or nothing when it is not an object, lacks a
string `family`, or lacks a list `fonts`. -/
def parseFamilyHeader (family : JsonValue) : Option (String × List JsonValue) :=
  match getAsDictionary family with
  | none => none
  | some family_dict =>
    match getDictString family_dict "family" with
    | none => none
    | some family_name =>
      match getDictList family_dict "fonts" with
      | none => none
      | some font_list => some (family_name, font_list)

/-- One family entry of the manifest list (lines 147-184): skipped unless its
header parses; otherwise the family's slot is set — replacing any earlier slot
of the same name with a fresh vector (`HashMap::set`) — and the fonts parsed
from this entry are pushed onto it. -/
def parseFamilyEntry (reg : Registry) (family : JsonValue) : Registry :=
  match parseFamilyHeader family with
  | none => reg
  | some (family_name, font_list) =>
    setFamily reg family_name (font_list.filterMap parseFontAttributes)

/-- `FlutterFontSelector::parseFontManifest`: an absent or undecodable manifest,
or one whose top level is not a list, yields the empty registry; otherwise the
family entries are folded left to right into the registry. -/
def parseFontManifest (manifest : Option JsonValue) : Registry :=
  match manifest with
  | none => []
  | some json =>
    match getAsList json with
    | none => []
    | some family_list => family_list.foldl parseFamilyEntry []

theorem alookup_setFamily_self (reg : Registry) (key : String)
    (v : List FlutterFontAttributes) : alookup (setFamily reg key v) key = some v := by
  induction reg with
  | nil => simp [setFamily, alookup]
  | cons kv rest ih =>
    obtain ⟨k, w⟩ := kv
    by_cases h : k = key
    · simp [setFamily, h, alookup]
    · simp [setFamily, h, alookup, ih]

theorem alookup_setFamily_other (reg : Registry) (key m : String)
    (v : List FlutterFontAttributes) (h : m ≠ key) :
    alookup (setFamily reg key v) m = alookup reg m := by
  induction reg with
  | nil =>
    have h1 : ¬ (key = m) := fun he => h he.symm
    simp [setFamily, alookup, h1]
  | cons kv rest ih =>
    obtain ⟨k, w⟩ := kv
    by_cases hk : k = key
    · have h1 : ¬ (key = m) := fun he => h he.symm
      have h2 : ¬ (k = m) := by rw [hk]; exact h1
      simp [setFamily, hk, alookup, h1, h2]
    · by_cases hm : k = m
      · simp [setFamily, hk, alookup, hm, h]
      · simp [setFamily, hk, alookup, hm, ih]

/-- Family entries that are not valid headers for name `n` leave `n`'s slot alone. -/
theorem alookup_foldl_of_no_header (es : List JsonValue) (reg : Registry) (n : String)
    (h : ∀ e ∈ es, ∀ fs, parseFamilyHeader e ≠ some (n, fs)) :
    alookup (es.foldl parseFamilyEntry reg) n = alookup reg n := by
  induction es generalizing reg with
  | nil => rfl
  | cons e es ih =>
    have he := h e (List.mem_cons_self _ _)
    have step : alookup (parseFamilyEntry reg e) n = alookup reg n := by
      unfold parseFamilyEntry
      cases hh : parseFamilyHeader e with
      | none => rfl
      | some p =>
        obtain ⟨name, fonts⟩ := p
        have hne : name ≠ n := fun hc => he fonts (by rw [hh, hc])
        exact alookup_setFamily_other reg name n _ (fun hc => hne hc.symm)
    rw [List.foldl_cons, ih _ (fun e he fs => h e (List.mem_cons_of_mem _ he) fs), step]

/-- After folding a valid family entry, the slot holds exactly that entry's
parsed fonts; later entries without that name preserve it. -/
theorem alookup_foldl_last_header (pre post : List JsonValue) (e : JsonValue)
    (reg : Registry) (n : String) (fs : List JsonValue)
    (he : parseFamilyHeader e = some (n, fs))
    (hpost : ∀ ex ∈ post, ∀ fsx, parseFamilyHeader ex ≠ some (n, fsx)) :
    alookup ((pre ++ e :: post).foldl parseFamilyEntry reg) n =
      some (fs.filterMap parseFontAttributes) := by
  rw [List.foldl_append, List.foldl_cons]
  rw [alookup_foldl_of_no_header post _ n hpost]
  unfold parseFamilyEntry
  rw [he]
  exact alookup_setFamily_self _ n _

/-- Counting valid entries: `filterMap` keeps exactly the entries the partial
function accepts. -/
theorem length_filterMap_eq_length_filter {α β : Type} (f : α → Option β) (l : List α) :
    (l.filterMap f).length = (l.filter (fun x => (f x).isSome)).length := by
  induction l with
  | nil => rfl
  | cons x t ih =>
    cases hfx : f x <;> simp [List.filterMap_cons, hfx, List.filter_cons, ih]

/-! ### Concrete manifest with a duplicated family name -/

/-- Fonts list of the first "F" entry: assets "a" and "b". -/
def dupFontsA : List JsonValue :=
  [JsonValue.dict [("asset", JsonValue.str "a")],
   JsonValue.dict [("asset", JsonValue.str "b")]]

/-- Fonts list of the second "F" entry: asset "c". -/
def dupFontsB : List JsonValue :=
  [JsonValue.dict [("asset", JsonValue.str "c")]]

/-- First manifest entry declaring family "F". -/
def dupFamilyEntryA : JsonValue :=
  JsonValue.dict [("family", JsonValue.str "F"), ("fonts", JsonValue.list dupFontsA)]

/-- Second manifest entry declaring family "F". -/
def dupFamilyEntryB : JsonValue :=
  JsonValue.dict [("family", JsonValue.str "F"), ("fonts", JsonValue.list dupFontsB)]

/-- C5 counterexample: for the manifest listing family "F" twice (first with
assets "a","b", then with asset "c"), the final slot holds only the later
entry's variant; the earlier entry's variant for asset "a" is not in it, so the
later entry did not extend the earlier one's list by append. -/
theorem parseFontManifest_duplicate_family_cex :
    alookup (parseFontManifest
        (some (JsonValue.list [dupFamilyEntryA, dupFamilyEntryB]))) "F" =
      some [⟨"c", 400, FontStyle.Normal⟩] ∧
    (⟨"a", 400, FontStyle.Normal⟩ : FlutterFontAttributes) ∉
      [(⟨"c", 400, FontStyle.Normal⟩ : FlutterFontAttributes)] := by
  decide

/-- C5 (amended): when the manifest lists the same family name in two entries,
the later entry replaces (resets) the registry slot: the family's final variant
list is exactly the later entry's parsed fonts, the earlier entry's variants
being discarded, whatever entries come before or between, provided no entry
after the later one re-declares the name. -/
theorem parseFontManifest_duplicate_family_replaces
    (pre mid post : List JsonValue) (e1 e2 : JsonValue) (n : String)
    (fs1 fs2 : List JsonValue)
    (h1 : parseFamilyHeader e1 = some (n, fs1))
    (h2 : parseFamilyHeader e2 = some (n, fs2))
    (hpost : ∀ ex ∈ post, ∀ fsx, parseFamilyHeader ex ≠ some (n, fsx)) :
    alookup (parseFontManifest
        (some (JsonValue.list (pre ++ e1 :: mid ++ e2 :: post)))) n =
      some (fs2.filterMap parseFontAttributes) := by
  show alookup ((pre ++ e1 :: mid ++ e2 :: post).foldl parseFamilyEntry []) n = _
  have hsplit : pre ++ e1 :: mid ++ e2 :: post = (pre ++ e1 :: mid) ++ e2 :: post := by
    simp
  rw [hsplit]
  exact alookup_foldl_last_header (pre ++ e1 :: mid) post e2 [] n fs2 h2 hpost

/-- Witness for the amended C5 at the concrete duplicated manifest. -/
theorem parseFontManifest_duplicate_family_replaces_witness :
    parseFamilyHeader dupFamilyEntryA = some ("F", dupFontsA) ∧
    parseFamilyHeader dupFamilyEntryB = some ("F", dupFontsB) ∧
    alookup (parseFontManifest
        (some (JsonValue.list ([] ++ dupFamilyEntryA :: [] ++ dupFamilyEntryB :: [])))) "F" =
      some (dupFontsB.filterMap parseFontAttributes) :=
  ⟨rfl, rfl,
    parseFontManifest_duplicate_family_replaces [] [] [] dupFamilyEntryA dupFamilyEntryB
      "F" dupFontsA dupFontsB rfl rfl (by simp)⟩

/-- C6 counterexample: in the duplicated-"F" manifest the first family entry has
a non-empty fonts list with two valid font entries, yet the final registry entry
for "F" has one variant, so on this manifest not every family entry's variant
count survives. -/
theorem parseFontManifest_count_cex :
    (alookup (parseFontManifest
        (some (JsonValue.list [dupFamilyEntryA, dupFamilyEntryB]))) "F").map
      List.length = some 1 ∧
    (dupFontsA.filterMap parseFontAttributes).length = 2 := by
  decide

/-- C6 (amended): malformed family entries are silently skipped (removing one
leaves the registry unchanged) and parsing never errors (it is total); every
family entry whose header parses and whose name no later valid entry re-declares
produces a registry entry holding exactly its valid font entries, so the variant
count equals the number of valid font entries parsed; and each valid font entry
yields its asset path, a weight defaulting to 400 when absent or non-integer,
and style Italic exactly when the style string equals "italic". -/
theorem parseFontManifest_entry_shape (pre post : List JsonValue) (e : JsonValue)
    (n : String) (fs : List JsonValue)
    (he : parseFamilyHeader e = some (n, fs))
    (hpost : ∀ ex ∈ post, ∀ fsx, parseFamilyHeader ex ≠ some (n, fsx)) :
    (alookup (parseFontManifest (some (JsonValue.list (pre ++ e :: post)))) n =
        some (fs.filterMap parseFontAttributes) ∧
      (fs.filterMap parseFontAttributes).length =
        (fs.filter (fun x => (parseFontAttributes x).isSome)).length) ∧
    (∀ pre2 bad post2, parseFamilyHeader bad = none →
      parseFontManifest (some (JsonValue.list (pre2 ++ bad :: post2))) =
        parseFontManifest (some (JsonValue.list (pre2 ++ post2)))) ∧
    (∀ entry fd path, getAsDictionary entry = some fd →
      getDictString fd "asset" = some path →
      parseFontAttributes entry = some
        { asset_path := path,
          weight := (getDictInteger fd "weight").getD kFontWeightNormal,
          style := if getDictString fd "style" = some "italic" then FontStyle.Italic
                   else FontStyle.Normal }) := by
  refine ⟨⟨?_, length_filterMap_eq_length_filter _ _⟩, ?_, ?_⟩
  · show alookup ((pre ++ e :: post).foldl parseFamilyEntry []) n = _
    exact alookup_foldl_last_header pre post e [] n fs he hpost
  · intro pre2 bad post2 hbad
    show (pre2 ++ bad :: post2).foldl parseFamilyEntry [] =
      (pre2 ++ post2).foldl parseFamilyEntry []
    rw [List.foldl_append, List.foldl_append, List.foldl_cons]
    have hskip : parseFamilyEntry (pre2.foldl parseFamilyEntry []) bad =
        pre2.foldl parseFamilyEntry [] := by
      unfold parseFamilyEntry; rw [hbad]
    rw [hskip]
  · intro entry fd path hd hpath
    cases hw : getDictInteger fd "weight" <;> cases hs : getDictString fd "style" <;>
      simp [parseFontAttributes, hd, hpath, hw, hs]

/-- Witness for the amended C6 at the first duplicated-manifest entry alone. -/
theorem parseFontManifest_entry_shape_witness :
    parseFamilyHeader dupFamilyEntryA = some ("F", dupFontsA) ∧
    ((alookup (parseFontManifest (some (JsonValue.list ([] ++ dupFamilyEntryA :: [])))) "F" =
        some (dupFontsA.filterMap parseFontAttributes) ∧
      (dupFontsA.filterMap parseFontAttributes).length =
        (dupFontsA.filter (fun x => (parseFontAttributes x).isSome)).length) ∧
    (∀ pre2 bad post2, parseFamilyHeader bad = none →
      parseFontManifest (some (JsonValue.list (pre2 ++ bad :: post2))) =
        parseFontManifest (some (JsonValue.list (pre2 ++ post2)))) ∧
    (∀ entry fd path, getAsDictionary entry = some fd →
      getDictString fd "asset" = some path →
      parseFontAttributes entry = some
        { asset_path := path,
          weight := (getDictInteger fd "weight").getD kFontWeightNormal,
          style := if getDictString fd "style" = some "italic" then FontStyle.Italic
                   else FontStyle.Normal })) :=
  ⟨rfl, parseFontManifest_entry_shape [] [] dupFamilyEntryA "F" dupFontsA rfl (by simp)⟩

/-! ### The selector state: the two caches and the orchestration -/

/-- An opaque Skia typeface handle, reduced to the bits the selector queries. -/
structure Typeface where
  isBold : Bool
  isItalic : Bool
deriving DecidableEq

/-- A typeface along with a buffer holding the raw typeface asset data
(struct TypefaceAsset). -/
structure TypefaceAsset where
  typeface : Typeface
  data : List Nat
deriving DecidableEq

/-- External collaborators: the asset bundle's byte fetch
(`ZipAssetBundle::GetAsBuffer`) and the typeface constructor
(`SkFontMgr::createFromStream`), both synchronous and deterministic. -/
structure Env where
  fetch : String → Option (List Nat)
  createFromStream : List Nat → Option Typeface

/-- blink FontCacheKey: derived from the creation params (the family) and every
style field of the request. -/
structure FontCacheKey where
  family : String
  fontSize : Int
  weight : Nat
  style : FontStyle
  syntheticBold : Bool
  syntheticItalic : Bool
  orientation : Nat
  subpixel : Bool
deriving DecidableEq

/-- `font_description.cacheKey(creationParams)` with
`creationParams = FontFaceCreationParams(family_name)`. -/
def cacheKey (description : FontDescription) (family_name : String) : FontCacheKey :=
  ⟨family_name, description.effectiveFontSize, description.weight, description.style,
   description.isSyntheticBold, description.isSyntheticItalic, description.orientation,
   description.useSubpixelPositioning⟩

/-- blink FontPlatformData: typeface plus resolved rendering parameters. -/
structure FontPlatformData where
  typeface : Typeface
  family : String
  textSize : Int
  synthetic_bold : Bool
  synthetic_italic : Bool
  orientation : Nat
  useSubpixelPositioning : Bool
deriving DecidableEq

/-- blink SimpleFontData, the renderable font-data object; `uid` tags each
`SimpleFontData::create` allocation so object identity is observable. -/
structure SimpleFontData where
  platform : FontPlatformData
  uid : Nat
deriving DecidableEq

/-- The FlutterFontSelector instance: family registry, typeface cache (a `none`
value is the permanent failure sentinel), font-data cache, and the allocation
counter backing object identity. -/
structure SelectorState where
  font_family_map : Registry
  typeface_cache : List (String × Option TypefaceAsset)
  font_platform_data_cache : List (FontCacheKey × SimpleFontData)
  next_uid : Nat
deriving DecidableEq

/-- Observable calls to the external collaborators. -/
inductive Event where
  | fetch (path : String)
  | construct (data : List Nat)
deriving DecidableEq

/-- The selector immediately after `install` parsed a manifest into `reg`:
both caches empty. -/
def installState (reg : Registry) : SelectorState := ⟨reg, [], [], 0⟩

/-- The well-known manifest path (`kFontManifestAssetPath`). -/
def kFontManifestAssetPath : String := "FontManifest.json"

/-- `FlutterFontSelector::install` + `parseFontManifest` lines 130-145: fetch
the manifest bytes at the well-known path, decode them (the JSON reader, an
external collaborator, is the `decode` parameter; absent bytes or a rejected
document both yield no value tree), and parse into the registry. -/
def install (env : Env) (decode : List Nat → Option JsonValue) : Registry :=
  parseFontManifest ((env.fetch kFontManifestAssetPath).bind decode)

/-- Lines 241-269 of `getTypefaceAsset`: consult the typeface cache (a hit,
failure sentinel included, answers without touching the collaborators); on a
miss fetch the bytes, then construct the typeface, recording a failure sentinel
when either step fails and the loaded asset when both succeed. -/
def resolveTypefaceAsset (env : Env) (asset_path : String) (st : SelectorState) :
    Option Typeface × SelectorState × List Event :=
  match alookup st.typeface_cache asset_path with
  | some cache_asset => (cache_asset.map TypefaceAsset.typeface, st, [])
  | none =>
    match env.fetch asset_path with
    | none =>
      (none, { st with typeface_cache := (asset_path, none) :: st.typeface_cache },
        [Event.fetch asset_path])
    | some data =>
      match env.createFromStream data with
      | none =>
        (none, { st with typeface_cache := (asset_path, none) :: st.typeface_cache },
          [Event.fetch asset_path, Event.construct data])
      | some typeface =>
        (some typeface,
          { st with
            typeface_cache := (asset_path, some ⟨typeface, data⟩) :: st.typeface_cache },
          [Event.fetch asset_path, Event.construct data])

/-- `FlutterFontSelector::getTypefaceAsset`: family lookup, empty check and
variant selection (`pickVariant`), then asset resolution. -/
def getTypefaceAsset (env : Env) (description : FontDescription) (family_name : String)
    (st : SelectorState) : Option Typeface × SelectorState × List Event :=
  match alookup st.font_family_map family_name with
  | none => (none, st, [])
  | some fonts =>
    match pickVariant description fonts with
    | none => (none, st, [])
    | some font => resolveTypefaceAsset env font.asset_path st

/-- Lines 200-215 of `getFontData`: the synthetic flag computation, the
FontPlatformData construction and the `SimpleFontData::create` allocation
(tagged `uid`). -/
def makeFontData (description : FontDescription) (family_name : String)
    (typeface : Typeface) (uid : Nat) : SimpleFontData :=
  ⟨⟨typeface, family_name, description.effectiveFontSize,
    (decide (FontWeight600 ≤ description.weight) && !typeface.isBold) ||
      description.isSyntheticBold,
    ((description.style == FontStyle.Italic) && !typeface.isItalic) ||
      description.isSyntheticItalic,
    description.orientation, description.useSubpixelPositioning⟩, uid⟩

/-- `FlutterFontSelector::getFontData`: font-data cache lookup; on a miss resolve
the typeface, build the font data object (`makeFontData`) and store it under the
cache key. -/
def getFontData (env : Env) (description : FontDescription) (family_name : String)
    (st : SelectorState) : Option SimpleFontData × SelectorState × List Event :=
  match alookup st.font_platform_data_cache (cacheKey description family_name) with
  | some font_data => (some font_data, st, [])
  | none =>
    match getTypefaceAsset env description family_name st with
    | (none, st1, tr) => (none, st1, tr)
    | (some typeface, st1, tr) =>
      (some (makeFontData description family_name typeface st1.next_uid),
        { st1 with
          font_platform_data_cache :=
            (cacheKey description family_name,
              makeFontData description family_name typeface st1.next_uid) ::
              st1.font_platform_data_cache,
          next_uid := st1.next_uid + 1 },
        tr)

/-- A sequence of `getFontData` calls, threading the state and concatenating the
collaborator events. -/
def runCalls (env : Env) : List (FontDescription × String) → SelectorState →
    SelectorState × List Event
  | [], st => (st, [])
  | (description, family_name) :: rest, st =>
    let r := getFontData env description family_name st
    let rr := runCalls env rest r.2.1
    (rr.1, r.2.2 ++ rr.2)

/-- The asset path `getTypefaceAsset` resolves for a request: the picked
variant's path, when family lookup and variant selection succeed. -/
def chosenPath (st : SelectorState) (description : FontDescription)
    (family_name : String) : Option String :=
  match alookup st.font_family_map family_name with
  | none => none
  | some fonts => (pickVariant description fonts).map FlutterFontAttributes.asset_path

theorem alookup_cons_self {α β : Type} [DecidableEq α] (l : List (α × β)) (k : α) (v : β) :
    alookup ((k, v) :: l) k = some v := by
  simp [alookup]

theorem alookup_cons_ne {α β : Type} [DecidableEq α] (l : List (α × β)) (k q : α) (v : β)
    (h : ¬ k = q) : alookup ((k, v) :: l) q = alookup l q := by
  simp [alookup, h]

/-- A recorded failure sentinel answers from the cache: not-found again, no
state change, no collaborator call. -/
theorem resolveTypefaceAsset_failure (env : Env) (p : String) (st : SelectorState)
    (h : alookup st.typeface_cache p = some none) :
    resolveTypefaceAsset env p st = (none, st, []) := by
  unfold resolveTypefaceAsset
  rw [h]
  rfl

/-- Whenever a resolve returns not-found, the failure sentinel for that path is
present afterwards: a failed fetch or a failed construction records it, and a
sentinel hit already had it. -/
theorem resolveTypefaceAsset_none_sentinel (env : Env) (p : String)
    (st0 st1 : SelectorState) (tr : List Event)
    (heq : resolveTypefaceAsset env p st0 = (none, st1, tr)) :
    alookup st1.typeface_cache p = some none := by
  unfold resolveTypefaceAsset at heq
  cases hc : alookup st0.typeface_cache p with
  | some c =>
    simp only [hc] at heq
    injection heq with h1 hrest
    injection hrest with h2 h3
    subst h2
    cases c with
    | none => exact hc
    | some a => cases h1
  | none =>
    simp only [hc] at heq
    cases hf : env.fetch p with
    | none =>
      simp only [hf] at heq
      injection heq with h1 hrest
      injection hrest with h2 h3
      subst h2
      exact alookup_cons_self st0.typeface_cache p none
    | some data =>
      simp only [hf] at heq
      cases hcr : env.createFromStream data with
      | none =>
        simp only [hcr] at heq
        injection heq with h1 hrest
        injection hrest with h2 h3
        subst h2
        exact alookup_cons_self st0.typeface_cache p none
      | some tf =>
        simp only [hcr] at heq
        injection heq with h1 _
        cases h1

/-- `getTypefaceAsset` when the resolved path carries a failure sentinel:
not-found, unchanged state, no collaborator call. -/
theorem getTypefaceAsset_failure (env : Env) (description : FontDescription)
    (family_name : String) (st : SelectorState) (p : String)
    (hfail : alookup st.typeface_cache p = some none)
    (hpath : chosenPath st description family_name = some p) :
    getTypefaceAsset env description family_name st = (none, st, []) := by
  unfold chosenPath at hpath
  cases hfam : alookup st.font_family_map family_name with
  | none => simp only [hfam] at hpath; cases hpath
  | some fonts =>
    simp only [hfam] at hpath
    cases hpick : pickVariant description fonts with
    | none => rw [hpick] at hpath; simp at hpath
    | some font =>
      rw [hpick] at hpath
      have hp : font.asset_path = p := by simpa using hpath
      unfold getTypefaceAsset
      simp only [hfam, hpick]
      rw [hp]
      exact resolveTypefaceAsset_failure env p st hfail

/-- `getTypefaceAsset` touches only the typeface cache. -/
theorem getTypefaceAsset_fields (env : Env) (description : FontDescription)
    (family_name : String) (st : SelectorState) (o : Option Typeface)
    (st1 : SelectorState) (tr : List Event)
    (heq : getTypefaceAsset env description family_name st = (o, st1, tr)) :
    st1.font_family_map = st.font_family_map ∧
    st1.font_platform_data_cache = st.font_platform_data_cache ∧
    st1.next_uid = st.next_uid := by
  unfold getTypefaceAsset at heq
  cases hfam : alookup st.font_family_map family_name with
  | none =>
    simp only [hfam] at heq
    injection heq with h1 hrest
    injection hrest with h2 h3
    subst h2; exact ⟨rfl, rfl, rfl⟩
  | some fonts =>
    simp only [hfam] at heq
    cases hpick : pickVariant description fonts with
    | none =>
      simp only [hpick] at heq
      injection heq with h1 hrest
      injection hrest with h2 h3
      subst h2; exact ⟨rfl, rfl, rfl⟩
    | some font =>
      simp only [hpick] at heq
      unfold resolveTypefaceAsset at heq
      cases hc : alookup st.typeface_cache font.asset_path with
      | some c =>
        simp only [hc] at heq
        injection heq with h1 hrest
        injection hrest with h2 h3
        subst h2; exact ⟨rfl, rfl, rfl⟩
      | none =>
        simp only [hc] at heq
        cases hf : env.fetch font.asset_path with
        | none =>
          simp only [hf] at heq
          injection heq with h1 hrest
          injection hrest with h2 h3
          subst h2; exact ⟨rfl, rfl, rfl⟩
        | some data =>
          simp only [hf] at heq
          cases hcr : env.createFromStream data with
          | none =>
            simp only [hcr] at heq
            injection heq with h1 hrest
            injection hrest with h2 h3
            subst h2; exact ⟨rfl, rfl, rfl⟩
          | some typeface =>
            simp only [hcr] at heq
            injection heq with h1 hrest
            injection hrest with h2 h3
            subst h2; exact ⟨rfl, rfl, rfl⟩

/-- Per-call typeface cache facts for `resolveTypefaceAsset`: cached values
persist, at most one fetch of any path, no fetch of an already-cached path, and
a fetched path is cached afterwards. -/
theorem resolveTypefaceAsset_props (env : Env) (p : String) (st : SelectorState)
    (o : Option Typeface) (st1 : SelectorState) (tr : List Event)
    (heq : resolveTypefaceAsset env p st = (o, st1, tr)) (q : String) :
    (∀ v, alookup st.typeface_cache q = some v → alookup st1.typeface_cache q = some v) ∧
    tr.count (Event.fetch q) ≤ 1 ∧
    (alookup st.typeface_cache q ≠ none → tr.count (Event.fetch q) = 0) ∧
    (Event.fetch q ∈ tr → alookup st1.typeface_cache q ≠ none) := by
  unfold resolveTypefaceAsset at heq
  cases hc : alookup st.typeface_cache p with
  | some c =>
    simp only [hc] at heq
    injection heq with h1 hrest
    injection hrest with h2 h3
    subst h2; subst h3
    exact ⟨fun v hv => hv, by simp, fun _ => by simp, fun hmem => absurd hmem (by simp)⟩
  | none =>
    simp only [hc] at heq
    cases hf : env.fetch p with
    | none =>
      simp only [hf] at heq
      injection heq with h1 hrest
      injection hrest with h2 h3
      subst h2; subst h3
      refine ⟨?_, ?_, ?_, ?_⟩
      · intro v hv
        have hpq : ¬ p = q := fun he => by rw [he, hv] at hc; cases hc
        exact (alookup_cons_ne st.typeface_cache p q none hpq).trans hv
      · by_cases hqp : q = p <;> simp [List.count_cons, hqp]
      · intro hne
        have hqp : ¬ q = p := fun he => hne (by rw [he]; exact hc)
        simp [List.count_cons, hqp]
      · intro hmem
        have hqp : q = p := by simpa using hmem
        rw [hqp]
        simp [alookup]
    | some data =>
      simp only [hf] at heq
      cases hcr : env.createFromStream data with
      | none =>
        simp only [hcr] at heq
        injection heq with h1 hrest
        injection hrest with h2 h3
        subst h2; subst h3
        refine ⟨?_, ?_, ?_, ?_⟩
        · intro v hv
          have hpq : ¬ p = q := fun he => by rw [he, hv] at hc; cases hc
          exact (alookup_cons_ne st.typeface_cache p q none hpq).trans hv
        · by_cases hqp : q = p <;> simp [List.count_cons, hqp]
        · intro hne
          have hqp : ¬ q = p := fun he => hne (by rw [he]; exact hc)
          simp [List.count_cons, hqp]
        · intro hmem
          have hqp : q = p := by simpa using hmem
          rw [hqp]
          simp [alookup]
      | some typeface =>
        simp only [hcr] at heq
        injection heq with h1 hrest
        injection hrest with h2 h3
        subst h2; subst h3
        refine ⟨?_, ?_, ?_, ?_⟩
        · intro v hv
          have hpq : ¬ p = q := fun he => by rw [he, hv] at hc; cases hc
          exact (alookup_cons_ne st.typeface_cache p q _ hpq).trans hv
        · by_cases hqp : q = p <;> simp [List.count_cons, hqp]
        · intro hne
          have hqp : ¬ q = p := fun he => hne (by rw [he]; exact hc)
          simp [List.count_cons, hqp]
        · intro hmem
          have hqp : q = p := by simpa using hmem
          rw [hqp]
          simp [alookup]

/-- The typeface cache facts lifted through `getTypefaceAsset`. -/
theorem getTypefaceAsset_props (env : Env) (description : FontDescription)
    (family_name : String) (st : SelectorState) (o : Option Typeface)
    (st1 : SelectorState) (tr : List Event)
    (heq : getTypefaceAsset env description family_name st = (o, st1, tr)) (q : String) :
    (∀ v, alookup st.typeface_cache q = some v → alookup st1.typeface_cache q = some v) ∧
    tr.count (Event.fetch q) ≤ 1 ∧
    (alookup st.typeface_cache q ≠ none → tr.count (Event.fetch q) = 0) ∧
    (Event.fetch q ∈ tr → alookup st1.typeface_cache q ≠ none) := by
  unfold getTypefaceAsset at heq
  cases hfam : alookup st.font_family_map family_name with
  | none =>
    simp only [hfam] at heq
    injection heq with h1 hrest
    injection hrest with h2 h3
    subst h2; subst h3
    exact ⟨fun v hv => hv, by simp, fun _ => by simp, fun hmem => absurd hmem (by simp)⟩
  | some fonts =>
    simp only [hfam] at heq
    cases hpick : pickVariant description fonts with
    | none =>
      simp only [hpick] at heq
      injection heq with h1 hrest
      injection hrest with h2 h3
      subst h2; subst h3
      exact ⟨fun v hv => hv, by simp, fun _ => by simp, fun hmem => absurd hmem (by simp)⟩
    | some font =>
      simp only [hpick] at heq
      exact resolveTypefaceAsset_props env font.asset_path st o st1 tr heq q

/-- The typeface cache facts lifted through `getFontData`. -/
theorem getFontData_props (env : Env) (description : FontDescription)
    (family_name : String) (st : SelectorState) (o : Option SimpleFontData)
    (st1 : SelectorState) (tr : List Event)
    (heq : getFontData env description family_name st = (o, st1, tr)) (q : String) :
    (∀ v, alookup st.typeface_cache q = some v → alookup st1.typeface_cache q = some v) ∧
    tr.count (Event.fetch q) ≤ 1 ∧
    (alookup st.typeface_cache q ≠ none → tr.count (Event.fetch q) = 0) ∧
    (Event.fetch q ∈ tr → alookup st1.typeface_cache q ≠ none) := by
  unfold getFontData at heq
  cases hk : alookup st.font_platform_data_cache (cacheKey description family_name) with
  | some fd =>
    simp only [hk] at heq
    injection heq with h1 hrest
    injection hrest with h2 h3
    subst h2; subst h3
    exact ⟨fun v hv => hv, by simp, fun _ => by simp, fun hmem => absurd hmem (by simp)⟩
  | none =>
    simp only [hk] at heq
    cases hg : getTypefaceAsset env description family_name st with
    | mk og rest2 =>
      obtain ⟨stg, trg⟩ := rest2
      cases og with
      | none =>
        simp only [hg] at heq
        injection heq with h1 hrest
        injection hrest with h2 h3
        subst h2; subst h3
        exact getTypefaceAsset_props env description family_name st none stg trg hg q
      | some tf =>
        simp only [hg] at heq
        injection heq with h1 hrest
        injection hrest with h2 h3
        subst h2; subst h3
        obtain ⟨m1, m2, m3, m4⟩ :=
          getTypefaceAsset_props env description family_name st (some tf) stg trg hg q
        exact ⟨fun v hv => m1 v hv, m2, m3, fun hmem => m4 hmem⟩

/-- Across any sequence of `getFontData` calls: any given path is fetched at
most once, never when already cached, and cached typeface entries persist
unchanged. -/
theorem runCalls_props (env : Env) (reqs : List (FontDescription × String))
    (st : SelectorState) (q : String) :
    ((runCalls env reqs st).2).count (Event.fetch q) ≤ 1 ∧
    (alookup st.typeface_cache q ≠ none →
      ((runCalls env reqs st).2).count (Event.fetch q) = 0) ∧
    (∀ v, alookup st.typeface_cache q = some v →
      alookup ((runCalls env reqs st).1).typeface_cache q = some v) := by
  induction reqs generalizing st with
  | nil =>
    exact ⟨by simp [runCalls], fun _ => by simp [runCalls], fun v hv => hv⟩
  | cons r rest ih =>
    obtain ⟨d, f⟩ := r
    obtain ⟨p1, p2, p3, p4⟩ := getFontData_props env d f st
      (getFontData env d f st).1 (getFontData env d f st).2.1 (getFontData env d f st).2.2
      rfl q
    obtain ⟨i1, i2, i3⟩ := ih ((getFontData env d f st).2.1)
    have hmono_ne : alookup st.typeface_cache q ≠ none →
        alookup ((getFontData env d f st).2.1).typeface_cache q ≠ none := by
      intro h0
      cases hv : alookup st.typeface_cache q with
      | none => exact absurd hv h0
      | some v => rw [p1 v hv]; simp
    have hstep1 : (runCalls env ((d, f) :: rest) st).1 =
        (runCalls env rest ((getFontData env d f st).2.1)).1 := rfl
    have hstep2 : (runCalls env ((d, f) :: rest) st).2 =
        (getFontData env d f st).2.2 ++
          (runCalls env rest ((getFontData env d f st).2.1)).2 := rfl
    refine ⟨?_, ?_, ?_⟩
    · rw [hstep2, List.count_append]
      by_cases h0 : alookup st.typeface_cache q = none
      · by_cases h1 : Event.fetch q ∈ (getFontData env d f st).2.2
        · have h2 := i2 (p4 h1)
          omega
        · have h2 : ((getFontData env d f st).2.2).count (Event.fetch q) = 0 :=
            List.count_eq_zero.mpr h1
          omega
      · have h2 := p3 h0
        have h3 := i2 (hmono_ne h0)
        omega
    · intro h0
      rw [hstep2, List.count_append]
      have h2 := p3 h0
      have h3 := i2 (hmono_ne h0)
      omega
    · intro v hv
      rw [hstep1]
      exact i3 v (p1 v hv)

/-- A cache hit returns the stored object unchanged: no state change, no events. -/
theorem getFontData_hit (env : Env) (description : FontDescription)
    (family_name : String) (st : SelectorState) (font_data : SimpleFontData)
    (h : alookup st.font_platform_data_cache (cacheKey description family_name) =
      some font_data) :
    getFontData env description family_name st = (some font_data, st, []) := by
  unfold getFontData
  rw [h]

/-- A successful `getFontData` leaves its result stored under the cache key. -/
theorem getFontData_stores (env : Env) (description : FontDescription)
    (family_name : String) (st : SelectorState) (fd : SimpleFontData)
    (st1 : SelectorState) (tr : List Event)
    (heq : getFontData env description family_name st = (some fd, st1, tr)) :
    alookup st1.font_platform_data_cache (cacheKey description family_name) = some fd := by
  unfold getFontData at heq
  cases hk : alookup st.font_platform_data_cache (cacheKey description family_name) with
  | some fd0 =>
    simp only [hk] at heq
    injection heq with h1 hrest
    injection hrest with h2 h3
    subst h2
    rw [hk]
    exact h1
  | none =>
    simp only [hk] at heq
    cases hg : getTypefaceAsset env description family_name st with
    | mk og rest2 =>
      obtain ⟨stg, trg⟩ := rest2
      cases og with
      | none =>
        simp only [hg] at heq
        injection heq with h1 _
        cases h1
      | some tf =>
        simp only [hg] at heq
        injection heq with h1 hrest
        injection hrest with h2 h3
        subst h2
        exact (alookup_cons_self stg.font_platform_data_cache
          (cacheKey description family_name)
          (makeFontData description family_name tf stg.next_uid)).trans h1

/-- `getFontData` never modifies the family registry. -/
theorem getFontData_family_map (env : Env) (description : FontDescription)
    (family_name : String) (st : SelectorState) :
    ((getFontData env description family_name st).2.1).font_family_map =
      st.font_family_map := by
  cases heq : getFontData env description family_name st with
  | mk o rest =>
    obtain ⟨st1, tr⟩ := rest
    show st1.font_family_map = st.font_family_map
    unfold getFontData at heq
    cases hk : alookup st.font_platform_data_cache (cacheKey description family_name) with
    | some fd =>
      simp only [hk] at heq
      injection heq with h1 hrest
      injection hrest with h2 h3
      subst h2; rfl
    | none =>
      simp only [hk] at heq
      cases hg : getTypefaceAsset env description family_name st with
      | mk og rest2 =>
        obtain ⟨stg, trg⟩ := rest2
        have hfields := (getTypefaceAsset_fields env description family_name st og stg trg hg).1
        cases og with
        | none =>
          simp only [hg] at heq
          injection heq with h1 hrest
          injection hrest with h2 h3
          subst h2; exact hfields
        | some tf =>
          simp only [hg] at heq
          injection heq with h1 hrest
          injection hrest with h2 h3
          subst h2; exact hfields

/-- Call sequences never modify the family registry. -/
theorem runCalls_family_map (env : Env) (reqs : List (FontDescription × String))
    (st : SelectorState) :
    ((runCalls env reqs st).1).font_family_map = st.font_family_map := by
  induction reqs generalizing st with
  | nil => rfl
  | cons r rest ih =>
    obtain ⟨d, f⟩ := r
    have h1 : (runCalls env ((d, f) :: rest) st).1 =
        (runCalls env rest ((getFontData env d f st).2.1)).1 := rfl
    rw [h1, ih ((getFontData env d f st).2.1), getFontData_family_map env d f st]

/-- A successful typeface resolution implies the family is registered with a
non-empty variant list. -/
theorem getTypefaceAsset_some_family (env : Env) (description : FontDescription)
    (family_name : String) (st : SelectorState) (tf : Typeface)
    (st1 : SelectorState) (tr : List Event)
    (heq : getTypefaceAsset env description family_name st = (some tf, st1, tr)) :
    ∃ fonts, alookup st.font_family_map family_name = some fonts ∧ fonts ≠ [] := by
  unfold getTypefaceAsset at heq
  cases hfam : alookup st.font_family_map family_name with
  | none =>
    simp only [hfam] at heq
    injection heq with h1 _
    cases h1
  | some fonts =>
    simp only [hfam] at heq
    refine ⟨fonts, rfl, ?_⟩
    intro hnil
    subst hnil
    injection heq with h1 _
    cases h1

/-- Every font-data cache entry points at a registered family with a non-empty
variant list. -/
def cacheConsistent (st : SelectorState) : Prop :=
  ∀ k v, alookup st.font_platform_data_cache k = some v →
    ∃ fonts, alookup st.font_family_map k.family = some fonts ∧ fonts ≠ []

theorem installState_consistent (reg : Registry) : cacheConsistent (installState reg) := by
  intro k v hkv
  simp [installState, alookup] at hkv

theorem getFontData_consistent (env : Env) (description : FontDescription)
    (family_name : String) (st : SelectorState) (h : cacheConsistent st) :
    cacheConsistent ((getFontData env description family_name st).2.1) := by
  cases heq : getFontData env description family_name st with
  | mk o rest =>
    obtain ⟨st1, tr⟩ := rest
    show cacheConsistent st1
    unfold getFontData at heq
    cases hk : alookup st.font_platform_data_cache (cacheKey description family_name) with
    | some fd =>
      simp only [hk] at heq
      injection heq with h1 hrest
      injection hrest with h2 h3
      subst h2; exact h
    | none =>
      simp only [hk] at heq
      cases hg : getTypefaceAsset env description family_name st with
      | mk og rest2 =>
        obtain ⟨stg, trg⟩ := rest2
        obtain ⟨hff, hfd, _⟩ := getTypefaceAsset_fields env description family_name st og stg trg hg
        cases og with
        | none =>
          simp only [hg] at heq
          injection heq with h1 hrest
          injection hrest with h2 h3
          subst h2
          intro k v hkv
          rw [hfd] at hkv
          rw [hff]
          exact h k v hkv
        | some tf =>
          simp only [hg] at heq
          injection heq with h1 hrest
          injection hrest with h2 h3
          subst h2
          intro k v hkv
          show ∃ fonts, alookup stg.font_family_map k.family = some fonts ∧ fonts ≠ []
          rw [hff]
          by_cases hkk : cacheKey description family_name = k
          · obtain ⟨fonts, hf2, hne⟩ :=
              getTypefaceAsset_some_family env description family_name st tf stg trg hg
            subst hkk
            exact ⟨fonts, hf2, hne⟩
          · have hkv2 : alookup stg.font_platform_data_cache k = some v := by
              have hred := alookup_cons_ne stg.font_platform_data_cache
                (cacheKey description family_name) k
                (makeFontData description family_name tf stg.next_uid) hkk
              exact hred.symm.trans hkv
            rw [hfd] at hkv2
            exact h k v hkv2

theorem runCalls_consistent (env : Env) (reqs : List (FontDescription × String))
    (st : SelectorState) (h : cacheConsistent st) :
    cacheConsistent ((runCalls env reqs st).1) := by
  induction reqs generalizing st with
  | nil => exact h
  | cons r rest ih =>
    obtain ⟨d, f⟩ := r
    have h1 : (runCalls env ((d, f) :: rest) st).1 =
        (runCalls env rest ((getFontData env d f st).2.1)).1 := rfl
    rw [h1]
    exact ih _ (getFontData_consistent env d f st h)

/-! ### Concrete collaborators and states for the witnesses -/

/-- An environment in which every fetch and every construction fails. -/
def env0 : Env := ⟨fun _ => none, fun _ => none⟩

/-- A concrete typeface handle reporting neither bold nor italic. -/
def wTypeface : Typeface := ⟨false, false⟩

/-- An environment in which every fetch yields the byte `[7]` and every
construction yields `wTypeface`. -/
def wEnv : Env := ⟨fun _ => some [7], fun _ => some wTypeface⟩

/-- A single regular-weight variant backed by asset "a.ttf". -/
def wVariant : FlutterFontAttributes := ⟨"a.ttf", 400, FontStyle.Normal⟩

/-- A registry holding the one-variant family "Roboto". -/
def wRegistry : Registry := [("Roboto", [wVariant])]

/-- A request for weight 700 (enum index 6), Normal style, no explicit
synthetic flags. -/
def wDescription : FontDescription := ⟨6, FontStyle.Normal, false, false, 12, 0, false⟩

/-- The state after resolving "a.ttf" against `wEnv` from the install state. -/
def wStTf : SelectorState := ⟨wRegistry, [("a.ttf", some ⟨wTypeface, [7]⟩)], [], 0⟩

/-- The font-data object built for `wDescription` over `wTypeface`. -/
def wFontData : SimpleFontData := makeFontData wDescription "Roboto" wTypeface 0

/-- The state after the first full `getFontData` call for `wDescription`. -/
def wSt1 : SelectorState :=
  ⟨wRegistry, [("a.ttf", some ⟨wTypeface, [7]⟩)],
   [(cacheKey wDescription "Roboto", wFontData)], 1⟩

/-- A state in which asset "bad.ttf" carries a recorded failure sentinel. -/
def failState : SelectorState :=
  ⟨[("F", [⟨"bad.ttf", 400, FontStyle.Normal⟩])], [("bad.ttf", none)], [], 0⟩

/-- A registry whose one family "G" has an empty variant list. -/
def emptyFamilyRegistry : Registry := [("G", [])]

/-! ### Claim theorems over the selector state -/

/-- C2: once a resolve of an asset path has recorded a failure (byte fetch
returned not-found, or typeface construction failed), the failure sentinel is
present and persists through any further call sequence, and every subsequent
resolve of that same path answers from the cache alone: unchanged state, no
fetch, no construction (empty event list), not-found again; the path is never
fetched again for the process lifetime. -/
theorem typeface_failure_permanent (env : Env) (st0 st : SelectorState) (p : String)
    (tr0 : List Event)
    (hfirst : resolveTypefaceAsset env p st0 = (none, st, tr0)) :
    alookup st.typeface_cache p = some none ∧
    (∀ reqs description family_name,
      chosenPath ((runCalls env reqs st).1) description family_name = some p →
      getTypefaceAsset env description family_name ((runCalls env reqs st).1) =
        (none, (runCalls env reqs st).1, [])) ∧
    (∀ reqs, alookup ((runCalls env reqs st).1).typeface_cache p = some none ∧
      Event.fetch p ∉ (runCalls env reqs st).2) := by
  have hfail := resolveTypefaceAsset_none_sentinel env p st0 st tr0 hfirst
  have hpers : ∀ reqs : List (FontDescription × String),
      alookup ((runCalls env reqs st).1).typeface_cache p = some none :=
    fun reqs => (runCalls_props env reqs st p).2.2 none hfail
  refine ⟨hfail, ?_, fun reqs => ⟨hpers reqs, ?_⟩⟩
  · intro reqs description family_name hpath
    exact getTypefaceAsset_failure env description family_name _ p (hpers reqs) hpath
  · have hcount := (runCalls_props env reqs st p).2.1 (by rw [hfail]; simp)
    exact List.count_eq_zero.mp hcount

/-- The install-time state preceding the failed resolve of "bad.ttf". -/
def preFailState : SelectorState := installState [("F", [⟨"bad.ttf", 400, FontStyle.Normal⟩])]

/-- Witness for C2 at a concrete first resolve whose fetch fails. -/
theorem typeface_failure_permanent_witness :
    resolveTypefaceAsset env0 "bad.ttf" preFailState =
      (none, failState, [Event.fetch "bad.ttf"]) ∧
    (alookup failState.typeface_cache "bad.ttf" = some none ∧
    (∀ reqs description family_name,
      chosenPath ((runCalls env0 reqs failState).1) description family_name =
        some "bad.ttf" →
      getTypefaceAsset env0 description family_name ((runCalls env0 reqs failState).1) =
        (none, (runCalls env0 reqs failState).1, [])) ∧
    (∀ reqs,
      alookup ((runCalls env0 reqs failState).1).typeface_cache "bad.ttf" = some none ∧
      Event.fetch "bad.ttf" ∉ (runCalls env0 reqs failState).2)) :=
  ⟨rfl, typeface_failure_permanent env0 preFailState failState "bad.ttf"
    [Event.fetch "bad.ttf"] rfl⟩

/-- C3: a `getFontData` call that produced a font-data object makes any second
call with an equal cache key return that very stored object (same identity tag)
with no state change and no collaborator call; and across any sequence of
`getFontData` calls the byte fetch runs at most once per distinct asset path. -/
theorem getFontData_idempotent (env : Env) (description : FontDescription)
    (family_name : String) (st : SelectorState) (fd : SimpleFontData)
    (st1 : SelectorState) (tr : List Event)
    (description2 : FontDescription) (family_name2 : String)
    (h1 : getFontData env description family_name st = (some fd, st1, tr))
    (hkey : cacheKey description2 family_name2 = cacheKey description family_name) :
    getFontData env description2 family_name2 st1 = (some fd, st1, []) ∧
    ∀ reqs p, ((runCalls env reqs st).2).count (Event.fetch p) ≤ 1 := by
  refine ⟨?_, fun reqs p => (runCalls_props env reqs st p).1⟩
  have hs := getFontData_stores env description family_name st fd st1 tr h1
  have hs2 : alookup st1.font_platform_data_cache (cacheKey description2 family_name2) =
      some fd := by rw [hkey]; exact hs
  exact getFontData_hit env description2 family_name2 st1 fd hs2

/-- Witness for C3: a concrete first call and its repeat. -/
theorem getFontData_idempotent_witness :
    getFontData wEnv wDescription "Roboto" (installState wRegistry) =
      (some wFontData, wSt1, [Event.fetch "a.ttf", Event.construct [7]]) ∧
    cacheKey wDescription "Roboto" = cacheKey wDescription "Roboto" ∧
    (getFontData wEnv wDescription "Roboto" wSt1 = (some wFontData, wSt1, []) ∧
      ∀ reqs p,
        ((runCalls wEnv reqs (installState wRegistry)).2).count (Event.fetch p) ≤ 1) :=
  ⟨rfl, rfl,
    getFontData_idempotent wEnv wDescription "Roboto" (installState wRegistry) wFontData
      wSt1 [Event.fetch "a.ttf", Event.construct [7]] wDescription "Roboto" rfl rfl⟩

/-- C4: when a request misses the font-data cache and resolves to a typeface,
the built font-data object's synthetic-bold flag is true iff (the requested
weight is at least FontWeight600 and the typeface does not report bold) or the
request's explicit synthetic-bold flag is set; likewise synthetic-italic with
Italic style and the typeface's italic bit. -/
theorem getFontData_synthetic_flags (env : Env) (description : FontDescription)
    (family_name : String) (st : SelectorState) (typeface : Typeface)
    (st1 : SelectorState) (tr : List Event)
    (hmiss : alookup st.font_platform_data_cache (cacheKey description family_name) = none)
    (htf : getTypefaceAsset env description family_name st = (some typeface, st1, tr)) :
    ∃ font_data,
      (getFontData env description family_name st).1 = some font_data ∧
      (font_data.platform.synthetic_bold = true ↔
        ((FontWeight600 ≤ description.weight ∧ typeface.isBold = false) ∨
          description.isSyntheticBold = true)) ∧
      (font_data.platform.synthetic_italic = true ↔
        ((description.style = FontStyle.Italic ∧ typeface.isItalic = false) ∨
          description.isSyntheticItalic = true)) := by
  refine ⟨makeFontData description family_name typeface st1.next_uid, ?_, ?_, ?_⟩
  · simp only [getFontData, hmiss, htf]
  · cases hb : typeface.isBold <;> cases hsb : description.isSyntheticBold <;>
      simp [makeFontData, hb, hsb]
  · cases hst : description.style <;> cases hit : typeface.isItalic <;>
      cases hsi : description.isSyntheticItalic <;>
      simp [makeFontData, hst, hit, hsi]

/-- Witness for C4 at a concrete resolving request. -/
theorem getFontData_synthetic_flags_witness :
    alookup (installState wRegistry).font_platform_data_cache
      (cacheKey wDescription "Roboto") = none ∧
    getTypefaceAsset wEnv wDescription "Roboto" (installState wRegistry) =
      (some wTypeface, wStTf, [Event.fetch "a.ttf", Event.construct [7]]) ∧
    (∃ font_data,
      (getFontData wEnv wDescription "Roboto" (installState wRegistry)).1 =
        some font_data ∧
      (font_data.platform.synthetic_bold = true ↔
        ((FontWeight600 ≤ wDescription.weight ∧ wTypeface.isBold = false) ∨
          wDescription.isSyntheticBold = true)) ∧
      (font_data.platform.synthetic_italic = true ↔
        ((wDescription.style = FontStyle.Italic ∧ wTypeface.isItalic = false) ∨
          wDescription.isSyntheticItalic = true))) :=
  ⟨rfl, rfl,
    getFontData_synthetic_flags wEnv wDescription "Roboto" (installState wRegistry)
      wTypeface wStTf [Event.fetch "a.ttf", Event.construct [7]] rfl rfl⟩

/-- C7: a request whose family is absent from the registry or registered with an
empty variant list returns not-found with no state change (neither cache is
touched, no collaborator call, nothing cached negatively), from any state
reachable by `getFontData` calls after install. -/
theorem getFontData_unknown_family (env : Env) (reg : Registry)
    (reqs : List (FontDescription × String)) (description : FontDescription)
    (family_name : String)
    (hfam : alookup reg family_name = none ∨ alookup reg family_name = some []) :
    getFontData env description family_name ((runCalls env reqs (installState reg)).1) =
      (none, (runCalls env reqs (installState reg)).1, []) := by
  have hreg : ((runCalls env reqs (installState reg)).1).font_family_map = reg :=
    runCalls_family_map env reqs (installState reg)
  have hcons : cacheConsistent ((runCalls env reqs (installState reg)).1) :=
    runCalls_consistent env reqs (installState reg) (installState_consistent reg)
  have hmiss : alookup ((runCalls env reqs (installState reg)).1).font_platform_data_cache
      (cacheKey description family_name) = none := by
    cases hv : alookup ((runCalls env reqs (installState reg)).1).font_platform_data_cache
        (cacheKey description family_name) with
    | none => rfl
    | some v =>
      obtain ⟨fonts, hf2, hne⟩ := hcons (cacheKey description family_name) v hv
      have hf3 : alookup reg family_name = some fonts := by
        rw [hreg] at hf2; exact hf2
      rcases hfam with hfam | hfam
      · rw [hfam] at hf3; cases hf3
      · rw [hfam] at hf3
        injection hf3 with hf4
        exact absurd hf4.symm hne
  have hgta : getTypefaceAsset env description family_name
      ((runCalls env reqs (installState reg)).1) =
      (none, (runCalls env reqs (installState reg)).1, []) := by
    rcases hfam with hfam | hfam
    · have hx : alookup ((runCalls env reqs (installState reg)).1).font_family_map
          family_name = none := by rw [hreg]; exact hfam
      simp only [getTypefaceAsset, hx]
    · have hx : alookup ((runCalls env reqs (installState reg)).1).font_family_map
          family_name = some [] := by rw [hreg]; exact hfam
      simp only [getTypefaceAsset, hx, pickVariant]
  simp only [getFontData, hmiss, hgta]

/-- Witness for C7: an absent family against a registry with one empty family. -/
theorem getFontData_unknown_family_witness :
    (alookup emptyFamilyRegistry "F" = none ∨
      alookup emptyFamilyRegistry "F" = some []) ∧
    getFontData env0 wDescription "F"
        ((runCalls env0 [] (installState emptyFamilyRegistry)).1) =
      (none, (runCalls env0 [] (installState emptyFamilyRegistry)).1, []) :=
  ⟨Or.inl rfl,
    getFontData_unknown_family env0 emptyFamilyRegistry [] wDescription "F" (Or.inl rfl)⟩

/-- A manifest value that is absent or not a top-level list parses to the empty
registry. -/
theorem parseFontManifest_not_list (manifest : Option JsonValue)
    (h : manifest = none ∨ ∀ xs, manifest ≠ some (JsonValue.list xs)) :
    parseFontManifest manifest = [] := by
  rcases h with h | h
  · rw [h]; rfl
  · cases manifest with
    | none => rfl
    | some j =>
      cases j with
      | list xs => exact absurd rfl (h xs)
      | nullv => rfl
      | boolean b => rfl
      | integer n => rfl
      | str s => rfl
      | dict entries => rfl

/-- C8: when the manifest is absent at the well-known path, or what it decodes
to is not a top-level list, `install` produces the empty registry without error,
and thereafter every `getFontData` call on the installed selector returns
not-found for every request, whatever calls came before. -/
theorem install_empty_manifest (env : Env) (decode : List Nat → Option JsonValue)
    (h : env.fetch kFontManifestAssetPath = none ∨
      ∀ xs, (env.fetch kFontManifestAssetPath).bind decode ≠ some (JsonValue.list xs)) :
    install env decode = [] ∧
    ∀ reqs description family_name,
      getFontData env description family_name
        ((runCalls env reqs (installState (install env decode))).1) =
        (none, installState [], []) := by
  have hempty : install env decode = [] := by
    unfold install
    refine parseFontManifest_not_list _ ?_
    rcases h with h | h
    · exact Or.inl (by rw [h]; rfl)
    · exact Or.inr h
  refine ⟨hempty, ?_⟩
  have hsingle : ∀ description family_name,
      getFontData env description family_name (installState []) =
        (none, installState [], []) := fun _ _ => rfl
  have hrun : ∀ reqs, runCalls env reqs (installState ([] : Registry)) =
      (installState [], []) := by
    intro reqs
    induction reqs with
    | nil => rfl
    | cons r rest ih =>
      obtain ⟨d, f⟩ := r
      have hstep : runCalls env ((d, f) :: rest) (installState ([] : Registry)) =
          ((runCalls env rest ((getFontData env d f (installState [])).2.1)).1,
            (getFontData env d f (installState [])).2.2 ++
            (runCalls env rest ((getFontData env d f (installState [])).2.1)).2) := rfl
      rw [hstep, hsingle d f]
      simp [ih]
  intro reqs description family_name
  rw [hempty, hrun reqs]
  exact hsingle description family_name

/-- Witness for C8 in an environment with no manifest at the well-known path. -/
theorem install_empty_manifest_witness :
    (env0.fetch kFontManifestAssetPath = none ∨
      ∀ xs, (env0.fetch kFontManifestAssetPath).bind (fun _ => some (JsonValue.integer 3)) ≠
        some (JsonValue.list xs)) ∧
    (install env0 (fun _ => some (JsonValue.integer 3)) = [] ∧
      ∀ reqs description family_name,
        getFontData env0 description family_name
          ((runCalls env0 reqs
            (installState (install env0 (fun _ => some (JsonValue.integer 3))))).1) =
          (none, installState [], [])) :=
  ⟨Or.inl rfl,
    install_empty_manifest env0 (fun _ => some (JsonValue.integer 3)) (Or.inl rfl)⟩

end FlutterFontSelector
